import Mathlib

set_option maxRecDepth 8000

/-!
Verification of the benchmarking harness `plots/comparison.py`.

The script drives two Poisson solvers (the Nim binary `./poisson`, solver A,
and the FEniCS script `poisson.py`, solver B) over a sweep of problem sizes,
parses the `/usr/bin/time` reports written to `timings/<solver><size>.txt`,
and renders a log-log comparison chart `comparison.png`.

The embedding below is a line-by-line translation of the script:

* `elements` is `np.logspace(2, 7, 6)` (line 8); the six powers of ten are
  exactly representable as IEEE doubles, so the list of naturals is exact.
* `problemSize` is `int(np.sqrt(n / 2))` (line 17).  For every element count
  in the sweep, `n / 2` is an integer that is exactly representable as a
  double and IEEE square root is correctly rounded, with the true square
  root far from an integer, so the truncated double computation agrees with
  the exact integer square root; we model it by a fuel-based Newton
  iteration `intSqrt`, proved equal to `Nat.sqrt` below.
* `pyFloatL` models Python's `float(str)` on finite decimal input
  (optional whitespace, sign, digits with optional point and exponent).
  Python additionally accepts underscores between digits and the literals
  `inf`/`infinity`/`nan`; non-finite values have no rational counterpart
  and neither form occurs in any input considered here.
* `runSweep`/`harness` model the `for` loop of lines 17-42 and the
  aggregation and reporting of lines 44-59, with the observable side
  effects (`print`, `subprocess.run`, `plt.savefig`) collected in an event
  trace and an uncaught Python exception modelled as `some` error (the
  interpreter then exits with a non-zero status and the remaining
  statements, in particular `plt.savefig`, never execute).
* measurement values are modelled as exact rationals: every literal that is
  actually parsed in the claims denotes the same value as its IEEE double
  reading, e.g. `float("3.140000")` and the rational `157/50` agree as
  real numbers up to the double rounding that the spec's "3.14 exactly"
  already identifies.
-/

set_option autoImplicit false

namespace Comparison

/-- Process environment or `timings/` directory contents: an association
list from key (variable name, file path) to value, first binding wins. -/
abbrev Env := List (String × String)

/-- Filesystem view of the `timings/` directory: path to file content.
A missing path models `FileNotFoundError` on `open` (line 34 / 39). -/
abbrev FS := List (String × String)

/-- First-match lookup in an association list (dictionary access / `open`). -/
def lookupA : List (String × String) → String → Option String
  | [], _ => none
  | (k, v) :: rest, q => if k = q then some v else lookupA rest q

/-- Python `d[k] = v` on a dictionary: replace the binding when the key is
present (keys are unique in a dict), otherwise append it.  Models line 14,
`fenics_env["OMP_NUM_THREADS"] = "1"`, applied to the copy made on
line 13, so the inherited environment itself is left unchanged. -/
def setEnvVar : Env → String → String → Env
  | [], k, v => [(k, v)]
  | (k0, v0) :: rest, k, v =>
    if k0 = k then (k, v) :: rest else (k0, v0) :: setEnvVar rest k v

/-- Newton step loop of `Nat.sqrt`, with explicit fuel so that the kernel
can evaluate it (the library version uses well-founded recursion). -/
def sqrtIter : ℕ → ℕ → ℕ → ℕ
  | 0, _, guess => guess
  | fuel + 1, n, guess =>
    let next := (guess + n / guess) / 2
    if next < guess then sqrtIter fuel n next else guess

/-- Integer square root, truncated: executable twin of `Nat.sqrt`
(`intSqrt_eq_natSqrt` below proves them equal). -/
def intSqrt (n : ℕ) : ℕ :=
  if n ≤ 1 then n else sqrtIter n n (n / 2)

/-- Target element counts `np.logspace(2, 7, 6)` of line 8: six log-spaced
values from `10^2` to `10^7`, all exactly representable. -/
def elements : List ℕ := [100, 1000, 10000, 100000, 1000000, 10000000]

/-- Problem size derivation `int(np.sqrt(n / 2))` of line 17: the floor of
the square root of half the element count. -/
def problemSize (n : ℕ) : ℕ := intSqrt (n / 2)

/-- Sweep order of problem sizes, the list comprehension of line 17. -/
def sweepSizes : List ℕ := elements.map problemSize

/-- Timing report path of solver A (Nim), lines 21 and 34. -/
def nimPath (n : ℕ) : String := "timings/nim" ++ toString n ++ ".txt"

/-- Timing report path of solver B (FEniCS), lines 26 and 39. -/
def fenicsPath (n : ℕ) : String := "timings/fenics" ++ toString n ++ ".txt"

/-- Argument vector of the solver A invocation (line 21): the timing
wrapper writes to the report path and `./poisson` receives the problem
size as its sole argument. -/
def nimCmd (n : ℕ) : List String :=
  ["/usr/bin/time", "-o", nimPath n, "./poisson", toString n]

/-- Argument vector of the solver B invocation (lines 22-30): the timing
wrapper writes to the report path and `poisson.py` receives the problem
size as its sole argument. -/
def fenicsCmd (n : ℕ) : List String :=
  ["/usr/bin/time", "-o", fenicsPath n, "python3", "poisson.py", toString n]

/-- Python whitespace stripped by `float` (space, tab, newline, carriage
return, vertical tab, form feed). -/
def isPySpace (c : Char) : Bool :=
  c = ' ' || c = '\t' || c = '\n' || c = '\r' || c = '\x0b' || c = '\x0c'

/-- Strip leading and trailing Python whitespace. -/
def pyStrip (cs : List Char) : List Char :=
  ((cs.dropWhile isPySpace).reverse.dropWhile isPySpace).reverse

/-- Numeric value of a list of decimal digits. -/
def digitsVal (ds : List Char) : ℕ :=
  ds.foldl (fun a c => 10 * a + (c.toNat - 48)) 0

/-- Consume an optional sign; `true` means negative. -/
def parseSign : List Char → Bool × List Char
  | '+' :: cs => (false, cs)
  | '-' :: cs => (true, cs)
  | cs => (false, cs)

/-- Consume `digits [. digits]` or `. digits` (at least one digit in
total), returning its rational value and the rest of the input. -/
def parseMantissa (cs : List Char) : Option (ℚ × List Char) :=
  let ip := cs.takeWhile Char.isDigit
  let cs1 := cs.dropWhile Char.isDigit
  match cs1 with
  | '.' :: cs2 =>
    let fp := cs2.takeWhile Char.isDigit
    let cs3 := cs2.dropWhile Char.isDigit
    if ip.isEmpty && fp.isEmpty then none
    else some ((digitsVal ip : ℚ) + (digitsVal fp : ℚ) / (10 : ℚ) ^ fp.length, cs3)
  | _ => if ip.isEmpty then none else some ((digitsVal ip : ℚ), cs1)

/-- Consume an optional exponent `e|E [sign] digits`; the whole rest of the
input must be used up, otherwise the literal is invalid. -/
def parseExpPart : List Char → Option ℤ
  | [] => some 0
  | c :: cs =>
    if c = 'e' || c = 'E' then
      let s := parseSign cs
      let ds := s.2.takeWhile Char.isDigit
      let rest := s.2.dropWhile Char.isDigit
      if ds.isEmpty || !rest.isEmpty then none
      else some (if s.1 then -(digitsVal ds : ℤ) else (digitsVal ds : ℤ))
    else none

/-- Value of an already-stripped finite Python float literal. -/
def pyFloatStripped (cs : List Char) : Option ℚ :=
  let s1 := parseSign cs
  match parseMantissa s1.2 with
  | none => none
  | some (m, rest) =>
    match parseExpPart rest with
    | none => none
    | some e => some ((if s1.1 then -m else m) * (10 : ℚ) ^ e)

/-- Python `float(str)` on finite decimal input: strip whitespace, then
parse sign, mantissa and exponent.  A `none` result models the
`ValueError` that `float` raises on invalid input (lines 37 and 42). -/
def pyFloatL (cs : List Char) : Option ℚ :=
  pyFloatStripped (pyStrip cs)

/-- Python `f.readline()` on the whole file content: the first line
including its terminating newline (the whole content when there is no
newline), lines 35 and 40. -/
def readline : List Char → List Char
  | [] => []
  | c :: cs => if c = '\n' then ['\n'] else c :: readline cs

/-- Does the input start with the marker `user`? -/
def startsWithUser : List Char → Bool
  | 'u' :: 's' :: 'e' :: 'r' :: _ => true
  | _ => false

/-- Does the marker `user` occur anywhere in the input? -/
def hasUser : List Char → Bool
  | [] => false
  | c :: cs => startsWithUser (c :: cs) || hasUser cs

/-- Portion of the input before the first occurrence of `user`, the whole
input when the marker is absent: Python `line.split("user")[0]` of
lines 36 and 41. -/
def beforeUser : List Char → List Char
  | [] => []
  | c :: cs => if startsWithUser (c :: cs) then [] else c :: beforeUser cs

/-- Timing parse of one report content (lines 35-37 / 40-42): read the
first line, keep the part before the first `user`, parse it as a float. -/
def parseUserTimeL (content : List Char) : Option ℚ :=
  pyFloatL (beforeUser (readline content))

/-- String-level wrapper of `parseUserTimeL`. -/
def parseUserTime (content : String) : Option ℚ :=
  parseUserTimeL content.toList

/-- Python exceptions the script can raise: `FileNotFoundError` from
`open`, `ValueError` from `float`, and the numpy broadcast error from
dividing arrays of incompatible shapes. -/
inductive PyErr where
  | fileNotFound (path : String)
  | valueErr (path : String)
  | broadcastErr
deriving DecidableEq

/-- Reading and parsing one timing report (the `with open(...)` blocks of
lines 34-37 and 39-42): a missing file raises `FileNotFoundError`, an
unparsable first line raises `ValueError`. -/
def readTiming (fsys : FS) (path : String) : Except PyErr ℚ :=
  match lookupA fsys path with
  | none => Except.error (PyErr.fileNotFound path)
  | some content =>
    match parseUserTime content with
    | none => Except.error (PyErr.valueErr path)
    | some q => Except.ok q

/-- Observable side effects of the script, in program order. -/
inductive Event where
  | subprocessRun (args : List String) (envOverride : Option Env)
  | printSize (n : ℕ)
  | printSeries (ts : List ℚ)
  | printSpeedup (ts : List ℚ)
  | savefig (path : String)
deriving DecidableEq

/-- Events of one loop iteration before the reads: `print(n)` (line 18)
and, only when `run` is true, the two solver invocations (lines 20-32),
solver A in the inherited environment and solver B under the
`OMP_NUM_THREADS = "1"` overlay. -/
def sweepEvents (r : Bool) (env : Env) (n : ℕ) : List Event :=
  if r then
    [Event.printSize n,
     Event.subprocessRun (nimCmd n) none,
     Event.subprocessRun (fenicsCmd n) (some (setEnvVar env "OMP_NUM_THREADS" "1"))]
  else [Event.printSize n]

/-- The sweep loop of lines 17-42 over a list of problem sizes: per size,
emit the iteration events, then read the Nim report and the FEniCS report;
the first exception aborts the loop, discarding the remaining sizes.
Returns the event trace together with either the exception or the two
accumulated measurement lists. -/
def runSweep (r : Bool) (env : Env) (fsys : FS) :
    List ℕ → List Event × Except PyErr (List ℚ × List ℚ)
  | [] => ([], Except.ok ([], []))
  | n :: rest =>
    match readTiming fsys (nimPath n), readTiming fsys (fenicsPath n) with
    | Except.error e, _ => (sweepEvents r env n, Except.error e)
    | Except.ok _, Except.error e => (sweepEvents r env n, Except.error e)
    | Except.ok tn, Except.ok tf =>
      match runSweep r env fsys rest with
      | (evs, Except.error e) => (sweepEvents r env n ++ evs, Except.error e)
      | (evs, Except.ok (tns, tfs)) =>
        (sweepEvents r env n ++ evs, Except.ok (tn :: tns, tf :: tfs))

/-- Element-wise division `time_fenics / time_nim` of two 1-D numpy arrays
(line 55): equal lengths divide index-wise, a length-1 operand is
broadcast, and any other shape mismatch raises a broadcast error.
Division by a zero entry is not guarded: numpy emits a warning and
produces a non-finite value, it does not raise; the non-finite result is
modelled by the unguarded rational division (`q / 0 = 0` by convention). -/
def numpyDiv (b a : List ℚ) : Except PyErr (List ℚ) :=
  if b.length = a.length then Except.ok (List.zipWith (fun x y => x / y) b a)
  else if a.length = 1 then Except.ok (b.map (fun x => x / a.headD 0))
  else if b.length = 1 then Except.ok (a.map (fun y => b.headD 0 / y))
  else Except.error PyErr.broadcastErr

/-- Whether an `Except` result is a success. -/
def exceptOk {ε α : Type} : Except ε α → Bool
  | Except.ok _ => true
  | Except.error _ => false

/-- The whole script (lines 8-59): run the sweep over `sweepSizes`; when it
completes, print both series (lines 45 and 47), compute and print the
speedup ratio (line 55) and save the chart (line 59).  An exception
anywhere stops execution there: the trace keeps the events already
emitted and the error is reported as the process's non-zero exit. -/
def harness (r : Bool) (env : Env) (fsys : FS) : List Event × Option PyErr :=
  match runSweep r env fsys sweepSizes with
  | (evs, Except.error e) => (evs, some e)
  | (evs, Except.ok (tn, tf)) =>
    match numpyDiv tf tn with
    | Except.error e =>
      (evs ++ [Event.printSeries tn, Event.printSeries tf], some e)
    | Except.ok sp =>
      (evs ++ [Event.printSeries tn, Event.printSeries tf,
               Event.printSpeedup sp, Event.savefig "comparison.png"], none)

/-- Concrete pre-populated `timings/` directory used as test data: one
valid report per solver and sweep size, Nim runs taking 2 seconds and
FEniCS runs taking 4 seconds of user time. -/
def goodFS : FS :=
  (sweepSizes.map fun n =>
    (nimPath n, "2.00user 0.00system 0:02.00elapsed 99%CPU\n")) ++
  (sweepSizes.map fun n =>
    (fenicsPath n, "4.00user 0.00system 0:04.00elapsed 99%CPU\n"))

/-- Decidable equality of `Except` results, for concrete evaluation. -/
instance exceptDecEq {ε α : Type} [DecidableEq ε] [DecidableEq α] :
    DecidableEq (Except ε α) := fun a b =>
  match a, b with
  | Except.error x, Except.error y =>
    match decEq x y with
    | isTrue h => isTrue (by rw [h])
    | isFalse h => isFalse (fun hh => h (by cases hh; rfl))
  | Except.error _, Except.ok _ => isFalse (fun hh => Except.noConfusion hh)
  | Except.ok _, Except.error _ => isFalse (fun hh => Except.noConfusion hh)
  | Except.ok x, Except.ok y =>
    match decEq x y with
    | isTrue h => isTrue (by rw [h])
    | isFalse h => isFalse (fun hh => h (by cases hh; rfl))

/-!
Helper lemmas.  First the bridge from the executable `intSqrt` to the
library integer square root `Nat.sqrt` and to the floor of the real square
root, then small facts about the parsing and environment functions, then
the behaviour of the sweep loop and the harness.
-/

theorem sqrtIter_eq_iter (fuel : ℕ) : ∀ n guess : ℕ, guess ≤ fuel →
    sqrtIter fuel n guess = Nat.sqrt.iter n guess := by
  induction fuel with
  | zero =>
    intro n guess h
    have hg : guess = 0 := Nat.le_zero.mp h
    subst hg
    rw [sqrtIter, Nat.sqrt.iter]
    simp
  | succ fuel ih =>
    intro n guess h
    rw [sqrtIter, Nat.sqrt.iter]
    by_cases hlt : (guess + n / guess) / 2 < guess
    · simp only [hlt, if_true, dif_pos]
      exact ih n _ (by omega)
    · simp [hlt]

theorem intSqrt_eq_natSqrt (n : ℕ) : intSqrt n = Nat.sqrt n := by
  rw [intSqrt, Nat.sqrt]
  by_cases h : n ≤ 1
  · simp [h]
  · simp only [h, if_false]
    exact sqrtIter_eq_iter n n (n / 2) (Nat.div_le_self n 2)

theorem natSqrt_floor_half (n : ℕ) :
    ((Nat.sqrt (n / 2) : ℕ) : ℤ) = ⌊Real.sqrt ((n : ℝ) / 2)⌋ := by
  have h0 : (0 : ℝ) ≤ (n : ℝ) / 2 := by positivity
  symm
  rw [Int.floor_eq_iff]
  push_cast
  constructor
  · rw [Real.le_sqrt (by positivity) h0]
    have h1 : ((Nat.sqrt (n / 2) : ℝ)) ^ 2 ≤ ((n / 2 : ℕ) : ℝ) := by
      exact_mod_cast Nat.sqrt_le' (n / 2)
    have h2 : ((n / 2 : ℕ) : ℝ) ≤ (n : ℝ) / 2 := Nat.cast_div_le
    linarith
  · rw [Real.sqrt_lt' (by positivity)]
    have h1 : ((n / 2 : ℕ) : ℝ) + 1 ≤ ((Nat.sqrt (n / 2) : ℝ) + 1) ^ 2 := by
      exact_mod_cast Nat.lt_succ_sqrt' (n / 2)
    have h2 : (n : ℝ) ≤ 2 * ((n / 2 : ℕ) : ℝ) + 1 := by
      exact_mod_cast (by omega : n ≤ 2 * (n / 2) + 1)
    linarith

theorem beforeUser_eq_self (cs : List Char) (h : hasUser cs = false) :
    beforeUser cs = cs := by
  induction cs with
  | nil => rfl
  | cons c rest ih =>
    rw [hasUser] at h
    have h2 := Bool.or_eq_false_iff.mp h
    rw [beforeUser, if_neg (by simp [h2.1]), ih h2.2]

theorem lookupA_setEnvVar_same (env : Env) (k v : String) :
    lookupA (setEnvVar env k v) k = some v := by
  induction env with
  | nil => simp [setEnvVar, lookupA]
  | cons p rest ih =>
    obtain ⟨k0, v0⟩ := p
    rw [setEnvVar]
    by_cases h : k0 = k
    · rw [if_pos h, lookupA, if_pos rfl]
    · rw [if_neg h, lookupA, if_neg h]
      exact ih

theorem lookupA_setEnvVar_other (env : Env) (k v q : String) (h : q ≠ k) :
    lookupA (setEnvVar env k v) q = lookupA env q := by
  induction env with
  | nil =>
    simp [setEnvVar, lookupA, Ne.symm h]
  | cons p rest ih =>
    obtain ⟨k0, v0⟩ := p
    rw [setEnvVar]
    by_cases hk : k0 = k
    · rw [if_pos hk, lookupA, lookupA,
        if_neg (fun hq => h hq.symm), if_neg (fun hq => h (hk ▸ hq).symm)]
    · rw [if_neg hk, lookupA, lookupA]
      by_cases hq : k0 = q
      · rw [if_pos hq, if_pos hq]
      · rw [if_neg hq, if_neg hq]
        exact ih

theorem mem_sweepEvents (r : Bool) (env : Env) (n : ℕ) (e : Event)
    (h : e ∈ sweepEvents r env n) :
    e = Event.printSize n ∨
      (r = true ∧ (e = Event.subprocessRun (nimCmd n) none ∨
        e = Event.subprocessRun (fenicsCmd n)
          (some (setEnvVar env "OMP_NUM_THREADS" "1")))) := by
  cases r <;> simp [sweepEvents] at h <;> tauto

theorem runSweep_event_shape (r : Bool) (env : Env) (fsys : FS) :
    ∀ (sizes : List ℕ) (e : Event), e ∈ (runSweep r env fsys sizes).1 →
      ∃ nn ∈ sizes, e = Event.printSize nn ∨
        (r = true ∧ (e = Event.subprocessRun (nimCmd nn) none ∨
          e = Event.subprocessRun (fenicsCmd nn)
            (some (setEnvVar env "OMP_NUM_THREADS" "1")))) := by
  intro sizes
  induction sizes with
  | nil => intro e he; simp [runSweep] at he
  | cons n rest ih =>
    intro e he
    cases hn : readTiming fsys (nimPath n) with
    | error err =>
      simp only [runSweep, hn] at he
      exact ⟨n, List.mem_cons_self n rest, mem_sweepEvents r env n e he⟩
    | ok tnv =>
      cases hf : readTiming fsys (fenicsPath n) with
      | error err =>
        simp only [runSweep, hn, hf] at he
        exact ⟨n, List.mem_cons_self n rest, mem_sweepEvents r env n e he⟩
      | ok tfv =>
        cases hrs : runSweep r env fsys rest with
        | mk evs res =>
          have hsplit : e ∈ sweepEvents r env n ∨ e ∈ evs := by
            cases res with
            | error err2 =>
              simp only [runSweep, hn, hf, hrs] at he
              exact List.mem_append.mp he
            | ok pair =>
              obtain ⟨tns, tfs⟩ := pair
              simp only [runSweep, hn, hf, hrs] at he
              exact List.mem_append.mp he
          rcases hsplit with hl | hr
          · exact ⟨n, List.mem_cons_self n rest, mem_sweepEvents r env n e hl⟩
          · obtain ⟨nn, hmem, hsh⟩ := ih e (by rw [hrs]; exact hr)
            exact ⟨nn, List.mem_cons_of_mem n hmem, hsh⟩

theorem exceptOk_ok {ε α : Type} (v : α) :
    exceptOk (Except.ok (ε := ε) v) = true := rfl

theorem exceptOk_error {ε α : Type} (e : ε) :
    exceptOk (Except.error (α := α) e) = false := rfl

theorem runSweep_ok_iff (r : Bool) (env : Env) (fsys : FS) :
    ∀ sizes : List ℕ, exceptOk (runSweep r env fsys sizes).2 = true ↔
      ∀ nn ∈ sizes, exceptOk (readTiming fsys (nimPath nn)) = true ∧
        exceptOk (readTiming fsys (fenicsPath nn)) = true := by
  intro sizes
  induction sizes with
  | nil => simp [runSweep, exceptOk_ok]
  | cons n rest ih =>
    cases hn : readTiming fsys (nimPath n) with
    | error err =>
      simp only [runSweep, hn, exceptOk_error]
      constructor
      · intro h; cases h
      · intro hall
        have h1 := (hall n (List.mem_cons_self n rest)).1
        rw [hn, exceptOk_error] at h1
        exact h1
    | ok tnv =>
      cases hf : readTiming fsys (fenicsPath n) with
      | error err =>
        simp only [runSweep, hn, hf, exceptOk_error]
        constructor
        · intro h; cases h
        · intro hall
          have h1 := (hall n (List.mem_cons_self n rest)).2
          rw [hf, exceptOk_error] at h1
          exact h1
      | ok tfv =>
        cases hrs : runSweep r env fsys rest with
        | mk evs res =>
          cases res with
          | error err2 =>
            simp only [runSweep, hn, hf, hrs, exceptOk_error]
            constructor
            · intro h; cases h
            · intro hall
              have hrest : ∀ nn ∈ rest,
                  exceptOk (readTiming fsys (nimPath nn)) = true ∧
                    exceptOk (readTiming fsys (fenicsPath nn)) = true :=
                fun nn hm => hall nn (List.mem_cons_of_mem n hm)
              have hok := (ih).mpr hrest
              rw [hrs, exceptOk_error] at hok
              exact hok
          | ok pair =>
            obtain ⟨tns, tfs⟩ := pair
            simp only [runSweep, hn, hf, hrs, exceptOk_ok]
            constructor
            · intro _ nn hm
              rcases List.mem_cons.mp hm with h | h
              · subst h
                exact ⟨by rw [hn]; rfl, by rw [hf]; rfl⟩
              · have hok : exceptOk (runSweep r env fsys rest).2 = true := by
                  rw [hrs]; rfl
                exact (ih.mp hok) nn h
            · intro _; trivial

theorem runSweep_ok_spec (r : Bool) (env : Env) (fsys : FS) :
    ∀ (sizes : List ℕ) (tn tf : List ℚ),
      (runSweep r env fsys sizes).2 = Except.ok (tn, tf) →
      tn.length = sizes.length ∧ tf.length = sizes.length ∧
      ∀ (i nn : ℕ), sizes[i]? = some nn →
        tn[i]? = (readTiming fsys (nimPath nn)).toOption ∧
        tf[i]? = (readTiming fsys (fenicsPath nn)).toOption := by
  intro sizes
  induction sizes with
  | nil =>
    intro tn tf h
    simp only [runSweep, Except.ok.injEq, Prod.mk.injEq] at h
    obtain ⟨h1, h2⟩ := h
    subst h1; subst h2
    refine ⟨rfl, rfl, ?_⟩
    intro i nn hnn
    simp at hnn
  | cons n rest ih =>
    intro tn tf h
    cases hn : readTiming fsys (nimPath n) with
    | error err => simp [runSweep, hn] at h
    | ok tnv =>
      cases hf : readTiming fsys (fenicsPath n) with
      | error err => simp [runSweep, hn, hf] at h
      | ok tfv =>
        cases hrs : runSweep r env fsys rest with
        | mk evs res =>
          cases res with
          | error err2 => simp [runSweep, hn, hf, hrs] at h
          | ok pair =>
            obtain ⟨tns, tfs⟩ := pair
            simp only [runSweep, hn, hf, hrs, Except.ok.injEq, Prod.mk.injEq] at h
            obtain ⟨h1, h2⟩ := h
            subst h1; subst h2
            have ihr := ih tns tfs (by rw [hrs])
            refine ⟨by simp [ihr.1], by simp [ihr.2.1], ?_⟩
            intro i nn hnn
            cases i with
            | zero =>
              simp only [List.getElem?_cons_zero, Option.some.injEq] at hnn
              subst hnn
              constructor
              · rw [hn]; simp [Except.toOption]
              · rw [hf]; simp [Except.toOption]
            | succ j =>
              simp only [List.getElem?_cons_succ] at hnn ⊢
              exact ihr.2.2 j nn hnn

theorem harness_none_iff (r : Bool) (env : Env) (fsys : FS) :
    (harness r env fsys).2 = none ↔
      exceptOk (runSweep r env fsys sweepSizes).2 = true := by
  cases hrs : runSweep r env fsys sweepSizes with
  | mk evs res =>
    cases res with
    | error err => simp [harness, hrs, exceptOk_error]
    | ok pair =>
      obtain ⟨tn, tf⟩ := pair
      have hspec := runSweep_ok_spec r env fsys sweepSizes tn tf (by rw [hrs])
      have hlen : tf.length = tn.length := by rw [hspec.2.1, hspec.1]
      simp [harness, hrs, numpyDiv, hlen, exceptOk_ok]

theorem savefig_not_mem_runSweep (r : Bool) (env : Env) (fsys : FS)
    (sizes : List ℕ) (p : String) :
    Event.savefig p ∉ (runSweep r env fsys sizes).1 := by
  intro hmem
  obtain ⟨nn, _, hsh⟩ := runSweep_event_shape r env fsys sizes _ hmem
  rcases hsh with h | ⟨_, h | h⟩ <;> exact Event.noConfusion h

theorem savefig_mem_harness_iff (r : Bool) (env : Env) (fsys : FS) :
    Event.savefig "comparison.png" ∈ (harness r env fsys).1 ↔
      (harness r env fsys).2 = none := by
  cases hrs : runSweep r env fsys sweepSizes with
  | mk evs res =>
    cases res with
    | error err =>
      simp only [harness, hrs]
      constructor
      · intro hmem
        have hnot := savefig_not_mem_runSweep r env fsys sweepSizes "comparison.png"
        rw [hrs] at hnot
        exact absurd hmem hnot
      · intro h; cases h
    | ok pair =>
      obtain ⟨tn, tf⟩ := pair
      have hspec := runSweep_ok_spec r env fsys sweepSizes tn tf (by rw [hrs])
      have hlen : tf.length = tn.length := by rw [hspec.2.1, hspec.1]
      simp [harness, hrs, numpyDiv, hlen]

theorem harness_trace_shape (r : Bool) (env : Env) (fsys : FS) (e : Event)
    (he : e ∈ (harness r env fsys).1) :
    (∃ nn ∈ sweepSizes, e = Event.printSize nn ∨
      (r = true ∧ (e = Event.subprocessRun (nimCmd nn) none ∨
        e = Event.subprocessRun (fenicsCmd nn)
          (some (setEnvVar env "OMP_NUM_THREADS" "1"))))) ∨
    (∃ ts : List ℚ, e = Event.printSeries ts) ∨
    (∃ ts : List ℚ, e = Event.printSpeedup ts) ∨
    e = Event.savefig "comparison.png" := by
  cases hrs : runSweep r env fsys sweepSizes with
  | mk evs res =>
    have hsw := runSweep_event_shape r env fsys sweepSizes e
    rw [hrs] at hsw
    cases res with
    | error err =>
      simp only [harness, hrs] at he
      exact Or.inl (hsw he)
    | ok pair =>
      obtain ⟨tn, tf⟩ := pair
      cases hnd : numpyDiv tf tn with
      | error err2 =>
        simp only [harness, hrs, hnd] at he
        rcases List.mem_append.mp he with hl | hr
        · exact Or.inl (hsw hl)
        · rcases List.mem_cons.mp hr with h | hr2
          · exact Or.inr (Or.inl ⟨tn, h⟩)
          · rcases List.mem_cons.mp hr2 with h | hr3
            · exact Or.inr (Or.inl ⟨tf, h⟩)
            · simp at hr3
      | ok sp =>
        simp only [harness, hrs, hnd] at he
        rcases List.mem_append.mp he with hl | hr
        · exact Or.inl (hsw hl)
        · rcases List.mem_cons.mp hr with h | hr2
          · exact Or.inr (Or.inl ⟨tn, h⟩)
          · rcases List.mem_cons.mp hr2 with h | hr3
            · exact Or.inr (Or.inl ⟨tf, h⟩)
            · rcases List.mem_cons.mp hr3 with h | hr4
              · exact Or.inr (Or.inr (Or.inl ⟨sp, h⟩))
              · rcases List.mem_cons.mp hr4 with h | hr5
                · exact Or.inr (Or.inr (Or.inr h))
                · simp at hr5

/-!
Claim theorems.
-/

/-- C1: for every target element count `n` in the configured sweep, the
derived problem size is `⌊√(n / 2)⌋`, the floor (truncation toward zero,
the two agreeing on nonnegative input) of the real square root of half the
count; in particular `n = 100` yields `7` and `n = 10000000` yields
`2236`. -/
theorem c1_problem_size (n : ℕ) (hmem : n ∈ elements) :
    (problemSize n : ℤ) = ⌊Real.sqrt ((n : ℝ) / 2)⌋ ∧
    problemSize 100 = 7 ∧ problemSize 10000000 = 2236 := by
  refine ⟨?_, by decide, by decide⟩
  rw [problemSize, intSqrt_eq_natSqrt]
  exact natSqrt_floor_half n

/-- Witness for C1 at `n = 100`. -/
theorem c1_problem_size_witness :
    100 ∈ elements ∧
    ((problemSize 100 : ℤ) = ⌊Real.sqrt (((100 : ℕ) : ℝ) / 2)⌋ ∧
      problemSize 100 = 7 ∧ problemSize 10000000 = 2236) :=
  ⟨by decide, c1_problem_size 100 (by decide)⟩

/-- C2 counterexample: the first line `"2.5"` does not contain the marker
`user`, yet parsing yields the Measurement `5/2` rather than failing —
`float("2.5\n")` succeeds, refuting the universal claim that a marker-less
first line always propagates a parse failure. -/
theorem c2_counterexample :
    hasUser (String.toList "2.5\n") = false ∧
    parseUserTime "2.5\n" = some ((5 : ℚ) / 2) := by
  with_unfolding_all decide

/-- C2 amended: for every timing report whose first line does not contain
the substring `user`, the parse result is exactly the float parse of the
entire first line — so parsing propagates a fatal parse failure precisely
when that line is not itself a valid float literal, and yields the line's
value as the Measurement otherwise; in particular the report
`"no marker here"` fails and never yields a Measurement. -/
theorem c2_amended_parse_failure :
    (∀ cs : List Char, hasUser (readline cs) = false →
      parseUserTimeL cs = pyFloatL (readline cs)) ∧
    parseUserTime "no marker here\n" = none := by
  constructor
  · intro cs h
    rw [parseUserTimeL, beforeUser_eq_self (readline cs) h]
  · with_unfolding_all decide

/-- Witness for the amended C2's equation on the marker-less line
`"abc"`. -/
theorem c2_amended_witness :
    hasUser (readline (String.toList "abc\n")) = false ∧
    parseUserTimeL (String.toList "abc\n") =
      pyFloatL (readline (String.toList "abc\n")) :=
  ⟨by decide, c2_amended_parse_failure.1 _ (by decide)⟩

/-- C3 counterexample: the generated problem-size sequence is not
`[7, 22, 70, 224, 707, 2236]` — the fourth entry is
`⌊√(100000 / 2)⌋ = ⌊√50000⌋ = 223`, not `224`. -/
theorem c3_counterexample : sweepSizes ≠ [7, 22, 70, 224, 707, 2236] := by
  decide

/-- C3 amended: for the configured sweep of six log-spaced target element
counts between `10^2` and `10^7`, the generated problem-size sequence is
exactly `[7, 22, 70, 223, 707, 2236]`, in that order. -/
theorem c3_sweep_sizes : sweepSizes = [7, 22, 70, 223, 707, 2236] := by
  decide

/-- C4 counterexample: the Aggregator does not reject every length
mismatch — the series `[1, 2]` and `[3]` have different lengths, yet the
numpy division broadcasts the length-1 divisor and succeeds instead of
rejecting the pair. -/
theorem c4_counterexample :
    ([(1 : ℚ), 2] : List ℚ).length ≠ ([(3 : ℚ)] : List ℚ).length ∧
    exceptOk (numpyDiv [(1 : ℚ), 2] [(3 : ℚ)]) = true := by
  with_unfolding_all decide

/-- C4 amended: after a sweep over the `k` problem sizes, the two
per-solver Measurement sequences each have length exactly `k`, with
position `i` holding the parse of the `i`-th problem size's report — but
this holds by construction of the loop, not by assertion: the Aggregator
contains no length check, and a mismatched length-1 denominator series is
broadcast-accepted rather than rejected. -/
theorem c4_amended_alignment :
    (∀ (r : Bool) (env : Env) (fsys : FS) (tn tf : List ℚ),
      (runSweep r env fsys sweepSizes).2 = Except.ok (tn, tf) →
      tn.length = sweepSizes.length ∧ tf.length = sweepSizes.length ∧
      ∀ (i nn : ℕ), sweepSizes[i]? = some nn →
        tn[i]? = (readTiming fsys (nimPath nn)).toOption ∧
        tf[i]? = (readTiming fsys (fenicsPath nn)).toOption) ∧
    (∀ a b : List ℚ, a.length = 1 → exceptOk (numpyDiv b a) = true) := by
  constructor
  · intro r env fsys tn tf h
    exact runSweep_ok_spec r env fsys sweepSizes tn tf h
  · intro a b h
    rw [numpyDiv]
    by_cases hb : b.length = a.length
    · rw [if_pos hb]; rfl
    · rw [if_neg hb, if_pos h]; rfl

/-- Witness for the amended C4 on the pre-populated timing directory. -/
theorem c4_amended_witness :
    ([(2 : ℚ), 2, 2, 2, 2, 2] : List ℚ).length = sweepSizes.length ∧
    ([(4 : ℚ), 4, 4, 4, 4, 4] : List ℚ).length = sweepSizes.length ∧
    ∀ (i nn : ℕ), sweepSizes[i]? = some nn →
      ([(2 : ℚ), 2, 2, 2, 2, 2] : List ℚ)[i]? =
        (readTiming goodFS (nimPath nn)).toOption ∧
      ([(4 : ℚ), 4, 4, 4, 4, 4] : List ℚ)[i]? =
        (readTiming goodFS (fenicsPath nn)).toOption :=
  c4_amended_alignment.1 false [] goodFS _ _ (by with_unfolding_all decide)

/-- C5: the speedup series is the element-wise ratio of solver B's
(FEniCS) Measurement to solver A's (Nim) Measurement at each aligned
index and has the same length as the series pair; a zero solver-A
denominator is not guarded against — the division still succeeds and the
undefined ratio value (numpy's non-finite result, here division-by-zero's
conventional value) propagates instead of an error being raised. -/
theorem c5_speedup_series :
    (∀ tn tf : List ℚ, tf.length = tn.length →
      numpyDiv tf tn = Except.ok (List.zipWith (fun b a => b / a) tf tn) ∧
      (List.zipWith (fun b a => b / a) tf tn).length = tn.length) ∧
    numpyDiv [(3 : ℚ)] [(0 : ℚ)] = Except.ok [(3 : ℚ) / 0] := by
  constructor
  · intro tn tf h
    constructor
    · rw [numpyDiv, if_pos h]
    · simp [h]
  · rfl

/-- Witness for C5 on the aligned one-point series `[4]` and `[2]`. -/
theorem c5_speedup_series_witness :
    ([(4 : ℚ)] : List ℚ).length = ([(2 : ℚ)] : List ℚ).length ∧
    (numpyDiv [(4 : ℚ)] [(2 : ℚ)] =
        Except.ok (List.zipWith (fun b a => b / a) [(4 : ℚ)] [(2 : ℚ)]) ∧
      (List.zipWith (fun b a => b / a) [(4 : ℚ)] [(2 : ℚ)]).length =
        ([(2 : ℚ)] : List ℚ).length) :=
  ⟨rfl, c5_speedup_series.1 [(2 : ℚ)] [(4 : ℚ)] rfl⟩

/-- C6: parsing a timing report whose first line is
`"3.140000user 0.010000system..."` yields the Measurement `3.14`
(`157/50`) exactly — the round trip of the timing-file textual format. -/
theorem c6_round_trip :
    parseUserTime "3.140000user 0.010000system...\n" = some ((157 : ℚ) / 50) := by
  with_unfolding_all decide

/-- C7: the run ends without error exactly when every timing report of
every problem size is present and parses; on any fatal condition the
harness stops with an error (a non-zero exit) and the chart is never
saved — `comparison.png` is written exactly in the error-free runs. -/
theorem c7_abort_policy (r : Bool) (env : Env) (fsys : FS) :
    ((harness r env fsys).2 = none ↔
      ∀ nn ∈ sweepSizes, exceptOk (readTiming fsys (nimPath nn)) = true ∧
        exceptOk (readTiming fsys (fenicsPath nn)) = true) ∧
    (∀ e : PyErr, (harness r env fsys).2 = some e →
      Event.savefig "comparison.png" ∉ (harness r env fsys).1) ∧
    (Event.savefig "comparison.png" ∈ (harness r env fsys).1 ↔
      (harness r env fsys).2 = none) := by
  refine ⟨?_, ?_, savefig_mem_harness_iff r env fsys⟩
  · rw [harness_none_iff]
    exact runSweep_ok_iff r env fsys sweepSizes
  · intro e he hmem
    have h2 := (savefig_mem_harness_iff r env fsys).mp hmem
    rw [he] at h2
    cases h2

/-- Witness for C7: with the fully populated timing directory the chart
is saved. -/
theorem c7_abort_policy_witness :
    Event.savefig "comparison.png" ∈ (harness false [] goodFS).1 :=
  (c7_abort_policy false [] goodFS).2.2.mpr (by with_unfolding_all decide)

/-- C8: in reuse mode (`run = False`, selected once for the whole sweep)
no subprocess is ever invoked, for any environment and any state of the
timing directory; and with valid pre-populated timing files the harness
still finishes without error, saves the image artifact and prints a
speedup series of full length 6. -/
theorem c8_reuse_mode :
    (∀ (env : Env) (fsys : FS) (args : List String) (eo : Option Env),
      Event.subprocessRun args eo ∉ (harness false env fsys).1) ∧
    (harness false [] goodFS).2 = none ∧
    Event.savefig "comparison.png" ∈ (harness false [] goodFS).1 ∧
    ∃ sp : List ℚ, Event.printSpeedup sp ∈ (harness false [] goodFS).1 ∧
      sp.length = 6 := by
  refine ⟨?_, by with_unfolding_all decide, by with_unfolding_all decide,
    ⟨[2, 2, 2, 2, 2, 2], by with_unfolding_all decide, rfl⟩⟩
  intro env fsys args eo hmem
  rcases harness_trace_shape false env fsys _ hmem with
    ⟨nn, _, h | ⟨hfalse, _⟩⟩ | ⟨ts, h⟩ | ⟨ts, h⟩ | h
  · exact Event.noConfusion h
  · exact Bool.noConfusion hfalse
  · exact Event.noConfusion h
  · exact Event.noConfusion h
  · exact Event.noConfusion h

/-- Witness for C8: no subprocess event occurs even on an empty timing
directory. -/
theorem c8_reuse_mode_witness :
    Event.subprocessRun (nimCmd 7) none ∉ (harness false [] ([] : FS)).1 :=
  c8_reuse_mode.1 [] [] (nimCmd 7) none

/-- C9: in execute mode, solver B's subprocess environment is the
inherited environment with the single variable `OMP_NUM_THREADS` pinned
to `"1"` and every other variable unchanged, while solver A's subprocess
runs with no environment override (the unmodified inherited environment)
— every subprocess event the harness can emit is one of the two solver
invocations with the problem size as the solver's sole argument. -/
theorem c9_execute_env (env : Env) :
    lookupA (setEnvVar env "OMP_NUM_THREADS" "1") "OMP_NUM_THREADS" = some "1" ∧
    (∀ k : String, k ≠ "OMP_NUM_THREADS" →
      lookupA (setEnvVar env "OMP_NUM_THREADS" "1") k = lookupA env k) ∧
    (∀ (fsys : FS) (args : List String) (eo : Option Env),
      Event.subprocessRun args eo ∈ (harness true env fsys).1 →
      ∃ nn ∈ sweepSizes,
        (args = nimCmd nn ∧ eo = none) ∨
        (args = fenicsCmd nn ∧
          eo = some (setEnvVar env "OMP_NUM_THREADS" "1"))) := by
  refine ⟨lookupA_setEnvVar_same env _ _,
    fun k hk => lookupA_setEnvVar_other env _ _ k hk, ?_⟩
  intro fsys args eo hmem
  rcases harness_trace_shape true env fsys _ hmem with
    ⟨nn, hmemn, h | ⟨_, h | h⟩⟩ | ⟨ts, h⟩ | ⟨ts, h⟩ | h
  · exact Event.noConfusion h
  · refine ⟨nn, hmemn, Or.inl ?_⟩
    injection h with h1 h2
    exact ⟨h1, h2⟩
  · refine ⟨nn, hmemn, Or.inr ?_⟩
    injection h with h1 h2
    exact ⟨h1, h2⟩
  · exact Event.noConfusion h
  · exact Event.noConfusion h
  · exact Event.noConfusion h

/-- Witness for C9: the overlay leaves the unrelated variable `PATH` of a
concrete environment unchanged. -/
theorem c9_execute_env_witness :
    lookupA (setEnvVar [("PATH", "/bin"), ("OMP_NUM_THREADS", "8")]
        "OMP_NUM_THREADS" "1") "PATH" =
      lookupA [("PATH", "/bin"), ("OMP_NUM_THREADS", "8")] "PATH" :=
  (c9_execute_env [("PATH", "/bin"), ("OMP_NUM_THREADS", "8")]).2.1 "PATH"
    (by decide)

/-- C10 (implicit): parsing an existing timing report applies the float
parse, after whitespace stripping, to exactly the portion of the first
line preceding the first `user` — the entire first line when the marker
is absent — so it fails precisely when that stripped portion is not a
valid float literal; in particular a marker-less first line `"3.14"`
parses successfully to `3.14` (`157/50`). -/
theorem c10_parse_iff :
    (∀ cs : List Char,
      parseUserTimeL cs = pyFloatStripped (pyStrip (beforeUser (readline cs)))) ∧
    (∀ cs : List Char, hasUser (readline cs) = false →
      beforeUser (readline cs) = readline cs) ∧
    parseUserTime "3.14\n" = some ((157 : ℚ) / 50) := by
  refine ⟨fun cs => rfl, fun cs h => beforeUser_eq_self (readline cs) h, ?_⟩
  with_unfolding_all decide

/-- Witness for C10 on the marker-less line `"3.14"`. -/
theorem c10_parse_iff_witness :
    hasUser (readline (String.toList "3.14\n")) = false ∧
    beforeUser (readline (String.toList "3.14\n")) =
      readline (String.toList "3.14\n") :=
  ⟨by decide, c10_parse_iff.2.1 _ (by decide)⟩

end Comparison
